import Mathlib

/-!
Shallow embedding of `src/agents/src/beta/workflows/task_group.ts`
(`TaskGroup`): the sequential task-group scheduler with regression,
two failure policies, per-task completion callback and final
history summarization.

Conventions of the embedding:
* Task identifiers are `String`, as in the source.
* A JavaScript object used as a string-keyed record (`taskResults`) is an
  association list with JS-object assignment semantics: assigning to an
  existing key updates the value in place (keeping the key's original
  insertion position), assigning a fresh key appends it (`objSet`).
* A JavaScript `Map` (`_registeredFactories`) has the same key semantics
  (`Map.set` keeps the first-insertion position on overwrite); it shares
  `objSet`/`objGet`.
* A JavaScript `Set` of strings (`_visitedTasks`) is an insertion-ordered
  duplicate-free list; `Set.add` is `visitedInsert`.
* An `AgentTask` is an opaque asynchronous computation; one invocation of
  `run()` is modelled by an oracle entry `RunOutcome` (success value /
  `OutOfScopeError` carrying target ids / other failure), and the optional
  completion callback's behaviour by `CbRes`. A run of the loop consumes a
  finite trace of such entries, one per iteration; an exhausted trace stops
  the model with `outOfFuel` (the loop itself can run unboundedly under
  mutual regressions, so the trace doubles as fuel).
* Task factories are opaque; a factory is represented by a numeric tag so
  that replacement on duplicate registration is observable.
* Success values of tasks are represented by `Nat`.
-/

namespace TaskGroup

/-- Outcome stored in the result set: either a task's success value or a
captured failure (the thrown error, which carries its message). -/
inductive TaskRes where
  | ok (v : Nat)
  | exn (msg : String)
deriving DecidableEq, Repr

/-- Association-list membership test for a string key, `Object.hasOwn` /
`Map.has`. -/
def hasKey {α : Type} (m : List (String × α)) (k : String) : Bool :=
  (m.map Prod.fst).contains k

/-- JS-object / JS-`Map` assignment `m[k] = v` (`Map.set(k, v)`): an existing
key keeps its position and gets the new value, a fresh key is appended. -/
def objSet {α : Type} (m : List (String × α)) (k : String) (v : α) :
    List (String × α) :=
  if hasKey m k then m.map (fun p => if p.1 = k then (k, v) else p)
  else m ++ [(k, v)]

/-- JS-object / JS-`Map` lookup `m[k]` (`Map.get(k)`). -/
def objGet {α : Type} (m : List (String × α)) (k : String) : Option α :=
  (m.find? (fun p => p.1 == k)).map Prod.snd

/-- `FactoryInfo` from the source; `taskFactory` is an opaque closure,
represented by a tag. -/
structure FactoryInfo where
  taskFactory : Nat
  id : String
  description : String
deriving DecidableEq, Repr

/-- `_registeredFactories : Map<string, FactoryInfo>`. -/
abbrev Registry := List (String × FactoryInfo)

/-- `TaskGroup.add(task, {id, description})`: inserts into the registry map. -/
def add (reg : Registry) (taskFactory : Nat) (id description : String) :
    Registry :=
  objSet reg id ⟨taskFactory, id, description⟩

/-- `[...this._registeredFactories.keys()]`, the initial `taskStack`. -/
def mapKeys (reg : Registry) : List String := reg.map Prod.fst

/-- JS `Set.add`: append the element unless already present. -/
def visitedInsert (v : List String) (tid : String) : List String :=
  if v.contains tid then v else v ++ [tid]

/-- One `run()` of an active task, as observed by the scheduler's `try`:
either it resolves with a value, or it rejects with an `OutOfScopeError`
carrying the requested regression targets, or it rejects with some other
failure. -/
inductive RunOutcome where
  | ok (v : Nat)
  | regress (targets : List String)
  | fail (msg : String)
deriving DecidableEq, Repr

/-- Behaviour of the per-task completion callback for one successful
iteration: `ok` also covers the case of no configured callback. -/
inductive CbRes where
  | ok
  | fail (msg : String)
deriving DecidableEq, Repr

/-- The loop-local state of `onEnter`: `taskStack`, `taskResults`,
`_visitedTasks`, plus two observation logs (order of task executions and
order of completion-callback invocations) used to state ordering
properties. -/
structure LoopState where
  stack : List String
  results : List (String × TaskRes)
  visited : List String
  execLog : List String
  cbLog : List String
deriving DecidableEq, Repr

/-- Result of one loop iteration: continue with a new state, or
`this.complete(error); return` (fail-fast abort, also taken on a callback
failure with `returnExceptions` disabled). -/
inductive StepRes where
  | next (s : LoopState)
  | abort (msg : String) (s : LoopState)
deriving DecidableEq, Repr

/-- One iteration of the `while` loop of `onEnter`, for popped id `tid` with
remaining stack `rest`, given the oracle entry for this iteration.
Mirrors lines 69–113 of the source: mark `tid` visited (before running),
run; on success store the result then invoke the callback; on
`OutOfScopeError` re-queue `tid` behind the targets and record nothing; on
any other caught error either record it (`returnExceptions`) or abort.
A callback failure is caught by the same `catch` as a task failure. -/
def loopStep (re : Bool) (tid : String) (rest : List String) (s : LoopState)
    (entry : RunOutcome × CbRes) : StepRes :=
  let vis := visitedInsert s.visited tid
  let el := s.execLog ++ [tid]
  match entry.1 with
  | .ok v =>
    let r1 := objSet s.results tid (.ok v)
    let cl := s.cbLog ++ [tid]
    match entry.2 with
    | .ok =>
      .next { stack := rest, results := r1, visited := vis,
              execLog := el, cbLog := cl }
    | .fail m =>
      if re then
        .next { stack := rest, results := objSet r1 tid (.exn m),
                visited := vis, execLog := el, cbLog := cl }
      else
        .abort m { stack := rest, results := r1, visited := vis,
                   execLog := el, cbLog := cl }
  | .regress targets =>
    .next { stack := targets ++ tid :: rest, results := s.results,
            visited := vis, execLog := el, cbLog := s.cbLog }
  | .fail m =>
    if re then
      .next { stack := rest, results := objSet s.results tid (.exn m),
              visited := vis, execLog := el, cbLog := s.cbLog }
    else
      .abort m { stack := rest, results := s.results, visited := vis,
                 execLog := el, cbLog := s.cbLog }

/-- Result of draining the loop: the queue emptied (`drained`), the loop
aborted via `complete(error)` (`aborted`), or the oracle trace ran out
while tasks were still queued (`outOfFuel`). -/
inductive LoopRes where
  | drained (s : LoopState)
  | aborted (msg : String) (s : LoopState)
  | outOfFuel (s : LoopState)
deriving DecidableEq, Repr

/-- The `while (taskStack.length > 0)` loop of `onEnter`, consuming one
oracle entry per iteration. -/
def runLoop (re : Bool) : LoopState → List (RunOutcome × CbRes) → LoopRes
  | s, [] =>
    match s.stack with
    | [] => .drained s
    | _ :: _ => .outOfFuel s
  | s, e :: tr =>
    match s.stack with
    | [] => .drained s
    | tid :: rest =>
      match loopStep re tid rest s e with
      | .next s' => runLoop re s' tr
      | .abort m s' => .aborted m s'

/-- Overall outcome of `onEnter`: `this.complete({taskResults})`,
`this.complete(error)`, or the model ran out of oracle entries. -/
inductive RunResult where
  | done (taskResults : List (String × TaskRes))
  | failed (msg : String)
  | noFuel (s : LoopState)
deriving DecidableEq, Repr

/-- Finalization (lines 116–141): when `_summarizeChatCtx` is set, require a
standard LLM on the session and summarize the copied chat context; any
failure in that `try` is reported as
`failed to summarize the chat_ctx: <e>`. `llmOk` models
`session.llm instanceof LLM`; `summ` models the outcome of
`ctxToSummarize._summarize`. -/
def finalize (summarize llmOk : Bool) (summ : Except String Unit)
    (results : List (String × TaskRes)) : RunResult :=
  if summarize then
    if !llmOk then
      .failed ("failed to summarize the chat_ctx: " ++
        "Error: summarizeChatCtx requires a standard LLM on the session")
    else
      match summ with
      | .error e => .failed ("failed to summarize the chat_ctx: " ++ e)
      | .ok _ => .done results
  else
    .done results

/-- Map the loop's result to the run's outcome: a drained queue proceeds to
finalization; `complete(error)` inside the loop is the run's failure. -/
def loopResultToRun (summarize llmOk : Bool) (summ : Except String Unit) :
    LoopRes → RunResult
  | .drained s => finalize summarize llmOk summ s.results
  | .aborted m _ => .failed m
  | .outOfFuel s => .noFuel s

/-- `TaskGroupOptions` (the two policy flags). -/
structure Options where
  summarizeChatCtx : Bool := true
  returnExceptions : Bool := false
deriving DecidableEq, Repr

/-- The loop state at the top of `onEnter`: the stack is seeded with the
registry's keys in insertion order; results, visited set and logs start
empty. -/
def initLoopState (reg : Registry) : LoopState :=
  { stack := mapKeys reg, results := [], visited := [], execLog := [],
    cbLog := [] }

/-- `TaskGroup.onEnter()` end to end: drain the loop, then finalize. -/
def onEnter (opts : Options) (reg : Registry)
    (trace : List (RunOutcome × CbRes)) (llmOk : Bool)
    (summ : Except String Unit) : RunResult :=
  loopResultToRun opts.summarizeChatCtx llmOk summ
    (runLoop opts.returnExceptions (initLoopState reg) trace)

/-- The regression-eligible ids computed in `buildOutOfScopeTool`
(lines 149–150): a copy of the visited set with the active id deleted.
These are exactly the values admitted by the tool's
`z.array(z.enum(taskIdValues))` parameter schema. -/
def buildEligible (visitedAtBuild : List String) (activeId : String) :
    List String :=
  visitedAtBuild.filter (fun x => x != activeId)

/-- The scheduler state the installed tool can observe or affect, plus the
`done` flag of the `AgentTask` instance the tool was built for. -/
structure ToolState where
  queue : List String
  visited : List String
  results : List (String × TaskRes)
  currentDone : Bool
deriving DecidableEq, Repr

/-- Observable outcome of one invocation of the `out_of_scope` tool:
rejected by the parameter schema (zod names the received invalid value),
rejected by the `ToolError` thrown in `execute`, the active task completed
with an `OutOfScopeError` (the regression signal), or a no-op. -/
inductive ToolOut where
  | schemaRejected (received : String)
  | rejected (msg : String)
  | signaled (targets : List String)
  | noop
deriving DecidableEq, Repr

/-- Parameter-schema validation of a tool call: `task_ids` is declared as
`z.array(z.enum(taskIdValues))`, so any id outside `taskIdValues` is
rejected before `execute` runs; the zod issue names the received value.
Returns the first offending id. -/
def zodEnumCheck (taskIdValues ids : List String) : Option String :=
  ids.find? (fun t => !(taskIdValues.contains t))

/-- The validation loop inside `execute` (lines 182–186): the first id that
is not a registered factory key or not in the (live) visited set triggers
`ToolError`. Returns that id. -/
def executeCheck (registeredKeys visited ids : List String) :
    Option String :=
  ids.find? (fun t => !(registeredKeys.contains t && visited.contains t))

/-- One invocation of the installed `out_of_scope` tool with arguments
`ids`: schema validation, then the `execute` body. `taskIdValues` is the
enum captured at build time; `registeredKeys` the registry's keys;
`st.visited` the live visited set. The body never touches the queue, the
visited set or the result set; when all ids validate it completes the bound
task instance with `OutOfScopeError(ids)` unless that instance is already
done. -/
def outOfScopeInvoke (taskIdValues registeredKeys : List String)
    (st : ToolState) (ids : List String) : ToolOut × ToolState :=
  match zodEnumCheck taskIdValues ids with
  | some bad => (.schemaRejected bad, st)
  | none =>
    match executeCheck registeredKeys st.visited ids with
    | some bad => (.rejected ("Unable to regress, invalid task id " ++ bad),
                   st)
    | none =>
      if st.currentDone then (.noop, st) else (.signaled ids, st)

/-- The state carried by either branch of a step result. -/
def stepState : StepRes → LoopState
  | .next s => s
  | .abort _ s => s

/-- An oracle trace in which every iteration's task resolves successfully
and every callback invocation succeeds. -/
def mkSuccessTrace (vs : List Nat) : List (RunOutcome × CbRes) :=
  vs.map (fun v => (.ok v, .ok))

end TaskGroup

namespace TaskGroup

/-! ### Lemmas about the JS-object operations -/

theorem hasKey_cons {α : Type} (p : String × α) (m : List (String × α))
    (k : String) : hasKey (p :: m) k = (k == p.1 || hasKey m k) := by
  simp [hasKey, List.contains_cons]

theorem objGet_cons {α : Type} (p : String × α) (m : List (String × α))
    (k : String) :
    objGet (p :: m) k = if p.1 = k then some p.2 else objGet m k := by
  by_cases h : p.1 = k
  · rw [objGet, List.find?_cons_of_pos _ (by simpa using h)]
    simp [h]
  · rw [objGet, List.find?_cons_of_neg _ (by simpa using h)]
    simp [h, objGet]

theorem objGet_nil {α : Type} (k : String) :
    objGet ([] : List (String × α)) k = none := by
  simp [objGet]

theorem mapFst_map_update {α : Type} (m : List (String × α)) (k : String)
    (v : α) :
    (m.map (fun p => if p.1 = k then (k, v) else p)).map Prod.fst =
      m.map Prod.fst := by
  induction m with
  | nil => simp
  | cons p m ih =>
    by_cases hp : p.1 = k
    · simp [hp, ih]
    · simp [hp, ih]

theorem objGet_map_update_self {α : Type} (m : List (String × α))
    (k : String) (v : α) (h : hasKey m k = true) :
    objGet (m.map (fun p => if p.1 = k then (k, v) else p)) k = some v := by
  induction m with
  | nil => simp [hasKey] at h
  | cons p m ih =>
    by_cases hp : p.1 = k
    · simp only [List.map_cons, hp, if_true]
      rw [objGet_cons]
      simp
    · simp only [List.map_cons, hp, if_false]
      rw [objGet_cons]
      simp only [hp, if_false]
      rw [hasKey_cons] at h
      simp only [Bool.or_eq_true, beq_iff_eq] at h
      rcases h with h | h
      · exact absurd h.symm hp
      · exact ih h

theorem objGet_map_update_ne {α : Type} (m : List (String × α))
    (k k' : String) (v : α) (h : k' ≠ k) :
    objGet (m.map (fun p => if p.1 = k then (k, v) else p)) k' =
      objGet m k' := by
  induction m with
  | nil => simp
  | cons p m ih =>
    by_cases hp : p.1 = k
    · simp only [List.map_cons, hp, if_true]
      rw [objGet_cons, objGet_cons]
      have h1 : ¬ (k = k') := fun he => h he.symm
      have h2 : ¬ (p.1 = k') := by
        rw [hp]
        exact h1
      simp [h1, h2, ih]
    · simp only [List.map_cons, hp, if_false]
      rw [objGet_cons, objGet_cons]
      by_cases hpk : p.1 = k'
      · simp [hpk]
      · simp [hpk, ih]

theorem objGet_append_single_self {α : Type} (m : List (String × α))
    (k : String) (v : α) (h : hasKey m k = false) :
    objGet (m ++ [(k, v)]) k = some v := by
  induction m with
  | nil => simp [objGet_cons]
  | cons p m ih =>
    rw [hasKey_cons] at h
    simp only [Bool.or_eq_false_iff] at h
    have hp : ¬ (p.1 = k) := by
      intro he
      rw [he] at h
      simp at h
    rw [List.cons_append, objGet_cons]
    simp [hp, ih h.2]

theorem objGet_append_single_ne {α : Type} (m : List (String × α))
    (k k' : String) (v : α) (h : k' ≠ k) :
    objGet (m ++ [(k, v)]) k' = objGet m k' := by
  induction m with
  | nil =>
    have h1 : ¬ (k = k') := fun he => h he.symm
    simp [objGet_cons, h1]
  | cons p m ih =>
    rw [List.cons_append, objGet_cons, objGet_cons]
    by_cases hpk : p.1 = k'
    · simp [hpk]
    · simp [hpk, ih]

/-- Storing under a key makes that key's lookup return exactly the stored
value, regardless of any earlier entry. -/
theorem objGet_objSet_self {α : Type} (m : List (String × α)) (k : String)
    (v : α) : objGet (objSet m k v) k = some v := by
  unfold objSet
  by_cases h : hasKey m k = true
  · simp only [h, if_true]
    exact objGet_map_update_self m k v h
  · simp only [Bool.not_eq_true] at h
    simp only [h, Bool.false_eq_true, if_false]
    exact objGet_append_single_self m k v h

/-- Storing under a key leaves lookups at other keys unchanged. -/
theorem objGet_objSet_ne {α : Type} (m : List (String × α)) (k k' : String)
    (v : α) (h : k' ≠ k) : objGet (objSet m k v) k' = objGet m k' := by
  unfold objSet
  by_cases hk : hasKey m k = true
  · simp only [hk, if_true]
    exact objGet_map_update_ne m k k' v h
  · simp only [Bool.not_eq_true] at hk
    simp only [hk, Bool.false_eq_true, if_false]
    exact objGet_append_single_ne m k k' v h

/-- Storing a fresh key appends the pair at the end. -/
theorem objSet_fresh {α : Type} (m : List (String × α)) (k : String) (v : α)
    (h : hasKey m k = false) : objSet m k v = m ++ [(k, v)] := by
  simp [objSet, h]

/-- Storing an existing key keeps the key list (and hence every key's
position) unchanged. -/
theorem mapFst_objSet_of_hasKey {α : Type} (m : List (String × α))
    (k : String) (v : α) (h : hasKey m k = true) :
    (objSet m k v).map Prod.fst = m.map Prod.fst := by
  rw [objSet, if_pos (by simp [h])]
  exact mapFst_map_update m k v

theorem mapFst_objSet_of_fresh {α : Type} (m : List (String × α))
    (k : String) (v : α) (h : hasKey m k = false) :
    (objSet m k v).map Prod.fst = m.map Prod.fst ++ [k] := by
  simp [objSet, h]

theorem objGet_eq_none_of_hasKey_false {α : Type} (m : List (String × α))
    (k : String) (h : hasKey m k = false) : objGet m k = none := by
  induction m with
  | nil => simp [objGet]
  | cons p m ih =>
    rw [hasKey_cons] at h
    simp only [Bool.or_eq_false_iff] at h
    have hp : ¬ (p.1 = k) := by
      intro he
      rw [he] at h
      simp at h
    rw [objGet_cons]
    simp [hp, ih h.2]

theorem hasKey_false_of_objGet_none {α : Type} (m : List (String × α))
    (k : String) (h : objGet m k = none) : hasKey m k = false := by
  induction m with
  | nil => simp [hasKey]
  | cons p m ih =>
    rw [objGet_cons] at h
    rw [hasKey_cons]
    by_cases hp : p.1 = k
    · simp [hp] at h
    · have hm := ih (by simpa [hp] using h)
      have : ¬ (k = p.1) := fun he => hp he.symm
      simp [this, hm]

end TaskGroup

namespace TaskGroup

/-! ### Lemmas about the visited set and one loop iteration -/

theorem subset_visitedInsert (v : List String) (tid : String) :
    v ⊆ visitedInsert v tid := by
  unfold visitedInsert
  split
  · exact fun a ha => ha
  · exact List.subset_append_left v [tid]

theorem mem_visitedInsert_self (v : List String) (tid : String) :
    tid ∈ visitedInsert v tid := by
  unfold visitedInsert
  by_cases h : tid ∈ v
  · simp [h]
  · simp [h]

/-- Every branch of one loop iteration appends exactly the popped id to the
execution log. -/
theorem stepState_execLog (re : Bool) (tid : String) (rest : List String)
    (s : LoopState) (e : RunOutcome × CbRes) :
    (stepState (loopStep re tid rest s e)).execLog = s.execLog ++ [tid] := by
  rcases e with ⟨ro, cb⟩
  cases re <;> cases ro <;> cases cb <;> simp [loopStep, stepState]

/-- Every branch of one loop iteration produces the visited set
`visitedInsert s.visited tid` (the id is added before the task runs, and
nothing is ever removed). -/
theorem stepState_visited (re : Bool) (tid : String) (rest : List String)
    (s : LoopState) (e : RunOutcome × CbRes) :
    (stepState (loopStep re tid rest s e)).visited =
      visitedInsert s.visited tid := by
  rcases e with ⟨ro, cb⟩
  cases re <;> cases ro <;> cases cb <;> simp [loopStep, stepState]

/-- The ids queued behind the popped one survive every branch of one loop
iteration. -/
theorem rest_subset_stepState_stack (re : Bool) (tid : String)
    (rest : List String) (s : LoopState) (e : RunOutcome × CbRes) :
    rest ⊆ (stepState (loopStep re tid rest s e)).stack := by
  rcases e with ⟨ro, cb⟩
  intro x hx
  cases re <;> cases ro <;> cases cb <;> simp [loopStep, stepState, hx]

/-! ### Lemmas about draining the whole loop -/

/-- If the loop drains its queue then every id in the execution log, and
every id still queued, appears in the final execution log. -/
theorem runLoop_drained_mem_execLog (re : Bool) :
    ∀ (tr : List (RunOutcome × CbRes)) (s fin : LoopState),
      runLoop re s tr = .drained fin →
      (∀ x ∈ s.execLog, x ∈ fin.execLog) ∧
      (∀ x ∈ s.stack, x ∈ fin.execLog) := by
  intro tr
  induction tr with
  | nil =>
    intro s fin h
    rcases hst : s.stack with _ | ⟨tid, rest⟩
    · simp only [runLoop, hst] at h
      injection h with h
      subst h
      exact ⟨fun x hx => hx, fun x hx => absurd hx (List.not_mem_nil x)⟩
    · simp only [runLoop, hst] at h
      exact absurd h (by intro hc; exact LoopRes.noConfusion hc)
  | cons e tr ih =>
    intro s fin h
    rcases hst : s.stack with _ | ⟨tid, rest⟩
    · simp only [runLoop, hst] at h
      injection h with h
      subst h
      exact ⟨fun x hx => hx, fun x hx => absurd hx (List.not_mem_nil x)⟩
    · simp only [runLoop, hst] at h
      cases hls : loopStep re tid rest s e with
      | abort m s' =>
        rw [hls] at h
        exact absurd h (by intro hc; exact LoopRes.noConfusion hc)
      | next s' =>
        rw [hls] at h
        obtain ⟨ih1, ih2⟩ := ih s' fin h
        have hel : s'.execLog = s.execLog ++ [tid] := by
          have := stepState_execLog re tid rest s e
          rw [hls] at this
          exact this
        have hstk : rest ⊆ s'.stack := by
          have := rest_subset_stepState_stack re tid rest s e
          rw [hls] at this
          exact this
        constructor
        · intro x hx
          exact ih1 x (by rw [hel]; exact List.mem_append_left _ hx)
        · intro x hx
          rcases List.mem_cons.mp hx with hx | hx
          · subst hx
            exact ih1 x (by rw [hel]; simp)
          · exact ih2 x (hstk hx)

end TaskGroup

namespace TaskGroup

theorem hasKey_append_single {α : Type} (m : List (String × α))
    (k t : String) (v : α) :
    hasKey (m ++ [(k, v)]) t = (hasKey m t || (t == k)) := by
  by_cases h1 : t ∈ List.map Prod.fst m <;> by_cases h2 : t = k <;>
    simp [hasKey, h1, h2]

/-- Draining a queue of distinct, unrecorded ids on an all-success trace of
matching length: every id executes once in queue order, the callback fires
once per id in the same order, and the results extend by the id/value pairs
in queue order. -/
theorem runLoop_allSuccess (re : Bool) :
    ∀ (ids : List String) (vs : List Nat) (s : LoopState),
      s.stack = ids → ids.length = vs.length → ids.Nodup →
      (∀ t ∈ ids, hasKey s.results t = false) →
      runLoop re s (mkSuccessTrace vs) = .drained
        { stack := [],
          results := s.results ++ ids.zip (vs.map TaskRes.ok),
          visited := ids.foldl visitedInsert s.visited,
          execLog := s.execLog ++ ids,
          cbLog := s.cbLog ++ ids } := by
  intro ids
  induction ids with
  | nil =>
    intro vs s hs hlen _ _
    have hvs : vs = [] := List.length_eq_zero.mp hlen.symm
    subst hvs
    simp only [mkSuccessTrace, List.map_nil]
    simp only [runLoop, hs]
    cases s
    simp_all
  | cons a ids ih =>
    intro vs s hs hlen hnd hfresh
    rcases vs with _ | ⟨v, vs⟩
    · simp at hlen
    have hfa : hasKey s.results a = false := hfresh a (by simp)
    simp only [mkSuccessTrace, List.map_cons]
    have hstep : loopStep re a ids s (.ok v, .ok) = .next
        { stack := ids, results := s.results ++ [(a, TaskRes.ok v)],
          visited := visitedInsert s.visited a,
          execLog := s.execLog ++ [a], cbLog := s.cbLog ++ [a] } := by
      simp [loopStep, objSet_fresh _ _ _ hfa]
    rw [show ((RunOutcome.ok v, CbRes.ok) :: List.map (fun v => (RunOutcome.ok v, CbRes.ok)) vs : List (RunOutcome × CbRes)) = (RunOutcome.ok v, CbRes.ok) :: mkSuccessTrace vs from rfl]
    simp only [runLoop, hs, hstep]
    have hnd' : ids.Nodup := (List.nodup_cons.mp hnd).2
    have hna : a ∉ ids := (List.nodup_cons.mp hnd).1
    have hfresh' : ∀ t ∈ ids,
        hasKey (s.results ++ [(a, TaskRes.ok v)]) t = false := by
      intro t ht
      rw [hasKey_append_single]
      have h1 : hasKey s.results t = false := hfresh t (by simp [ht])
      have h2 : ¬ (t = a) := fun he => hna (he ▸ ht)
      simp [h1, h2]
    have hlen' : ids.length = vs.length := by simpa using hlen
    have := ih vs
      { stack := ids, results := s.results ++ [(a, TaskRes.ok v)],
        visited := visitedInsert s.visited a,
        execLog := s.execLog ++ [a], cbLog := s.cbLog ++ [a] }
      rfl hlen' hnd' hfresh'
    rw [this]
    simp [List.append_assoc]

end TaskGroup

namespace TaskGroup

/-- The tool body never modifies the scheduler state it can see: every
branch of an invocation returns the state unchanged. -/
theorem outOfScopeInvoke_snd (taskIdValues registeredKeys : List String)
    (st : ToolState) (ids : List String) :
    (outOfScopeInvoke taskIdValues registeredKeys st ids).2 = st := by
  unfold outOfScopeInvoke
  cases h1 : zodEnumCheck taskIdValues ids with
  | some bad => rfl
  | none =>
    cases h2 : executeCheck registeredKeys st.visited ids with
    | some bad => rfl
    | none =>
      by_cases hd : st.currentDone = true
      · simp [hd]
      · simp only [Bool.not_eq_true] at hd
        simp [hd]


/-! ### Claim theorems -/

/-- C1 (counterexample): with `returnExceptions` enabled (the
collect-and-continue policy), a completion-callback failure after task `a`
succeeds does not abort the run: the callback failure is recorded as `a`'s
ResultSet entry (overwriting the success value 1), the queued task `b`
still executes, and the run completes normally with the result set instead
of failing with the callback error. -/
theorem c1_callback_failure_counterexample :
    onEnter (Options.mk false true)
        [("a", ⟨0, "a", "A"⟩), ("b", ⟨1, "b", "B"⟩)]
        [(.ok 1, .fail "boom"), (.ok 2, .ok)] true (.ok ()) =
      .done [("a", .exn "boom"), ("b", .ok 2)] ∧
    onEnter (Options.mk false true)
        [("a", ⟨0, "a", "A"⟩), ("b", ⟨1, "b", "B"⟩)]
        [(.ok 1, .fail "boom"), (.ok 2, .ok)] true (.ok ()) ≠
      .failed "boom" := by
  constructor
  · rfl
  · decide

/-- C1 (amended): a failure raised by the per-task completion callback after
`tid` succeeded is fatal only under the fail-fast policy
(`returnExceptions` disabled): there the run aborts immediately with the
callback failure as its outcome, no further queued task executes, and the
callback failure is not recorded (`tid` keeps its success value). Under
collect-and-continue (`returnExceptions` enabled) the callback failure is
instead recorded as `tid`'s ResultSet entry, overwriting the success value,
and the loop continues with the remaining queue. -/
theorem c1_callback_failure_policy (tid : String) (rest : List String)
    (s : LoopState) (tr : List (RunOutcome × CbRes)) (v : Nat) (m : String)
    (hs : s.stack = tid :: rest) :
    (∃ s', runLoop false s ((.ok v, .fail m) :: tr) = .aborted m s' ∧
      s'.execLog = s.execLog ++ [tid] ∧
      objGet s'.results tid = some (.ok v) ∧
      (∀ (sm lo : Bool) (su : Except String Unit),
        loopResultToRun sm lo su (.aborted m s') = .failed m)) ∧
    (∃ s', runLoop true s ((.ok v, .fail m) :: tr) = runLoop true s' tr ∧
      s'.stack = rest ∧
      objGet s'.results tid = some (.exn m)) := by
  constructor
  · refine ⟨LoopState.mk rest (objSet s.results tid (.ok v))
      (visitedInsert s.visited tid) (s.execLog ++ [tid]) (s.cbLog ++ [tid]),
      ?_, rfl, objGet_objSet_self _ _ _, fun _ _ _ => rfl⟩
    simp only [runLoop, hs]
    rfl
  · refine ⟨LoopState.mk rest (objSet (objSet s.results tid (.ok v)) tid (.exn m))
      (visitedInsert s.visited tid) (s.execLog ++ [tid]) (s.cbLog ++ [tid]),
      ?_, rfl, objGet_objSet_self _ _ _⟩
    simp only [runLoop, hs]
    rfl

/-- C1 (witness): the amended theorem applied at a concrete state. -/
theorem c1_callback_failure_policy_witness :
    ((LoopState.mk ["a", "b"] [] [] [] []).stack = "a" :: ["b"]) ∧
    ((∃ s', runLoop false (LoopState.mk ["a", "b"] [] [] [] [])
          [(.ok 1, .fail "boom")] = .aborted "boom" s' ∧
        s'.execLog = (LoopState.mk ["a", "b"] [] [] [] []).execLog ++ ["a"] ∧
        objGet s'.results "a" = some (.ok 1) ∧
        (∀ (sm lo : Bool) (su : Except String Unit),
          loopResultToRun sm lo su (.aborted "boom" s') = .failed "boom")) ∧
      (∃ s', runLoop true (LoopState.mk ["a", "b"] [] [] [] [])
          [(.ok 1, .fail "boom")] = runLoop true s' [] ∧
        s'.stack = ["b"] ∧
        objGet s'.results "a" = some (.exn "boom"))) :=
  ⟨rfl, c1_callback_failure_policy "a" ["b"]
    (LoopState.mk ["a", "b"] [] [] [] []) [] 1 "boom" rfl⟩

/-- C2: when the active task `tid` raises a regression signal with target
list `T`, the loop's next queue state is exactly `T ++ [tid] ++ rest`
(targets in the given order, duplicates not deduplicated, then `tid`, then
the previously queued ids), no ResultSet entry is recorded from the
interrupted iteration, and a later successful completion of `tid` is what
its ResultSet entry reflects (recording a success under `tid` makes its
lookup that value, regardless of earlier entries). -/
theorem c2_regression_requeue (re : Bool) (tid : String)
    (rest T : List String) (s : LoopState) (cb : CbRes)
    (tr : List (RunOutcome × CbRes)) (hs : s.stack = tid :: rest)
    (hT : T ≠ []) :
    ∃ s', runLoop re s ((.regress T, cb) :: tr) = runLoop re s' tr ∧
      s'.stack = T ++ tid :: rest ∧
      s'.results = s.results ∧
      (∀ (r : List (String × TaskRes)) (v : Nat),
        objGet (objSet r tid (.ok v)) tid = some (.ok v)) := by
  refine ⟨LoopState.mk (T ++ tid :: rest) s.results
    (visitedInsert s.visited tid) (s.execLog ++ [tid]) s.cbLog,
    ?_, rfl, rfl, fun r v => objGet_objSet_self r tid (.ok v)⟩
  simp only [runLoop, hs]
  cases cb <;> rfl

/-- C2 (witness): the theorem applied at a concrete state with a duplicated
target. -/
theorem c2_regression_requeue_witness :
    ((LoopState.mk ["b", "c"] [("a", .ok 1)] ["a", "b"] ["a", "b"]
        ["a"]).stack = "b" :: ["c"]) ∧
    (["a", "a"] : List String) ≠ [] ∧
    (∃ s', runLoop false
        (LoopState.mk ["b", "c"] [("a", .ok 1)] ["a", "b"] ["a", "b"] ["a"])
        [(.regress ["a", "a"], .ok)] = runLoop false s' [] ∧
      s'.stack = ["a", "a"] ++ "b" :: ["c"] ∧
      s'.results = (LoopState.mk ["b", "c"] [("a", .ok 1)] ["a", "b"]
        ["a", "b"] ["a"]).results ∧
      (∀ (r : List (String × TaskRes)) (v : Nat),
        objGet (objSet r "b" (.ok v)) "b" = some (.ok v))) :=
  ⟨rfl, by decide, c2_regression_requeue false "b" ["c"] ["a", "a"]
    (LoopState.mk ["b", "c"] [("a", .ok 1)] ["a", "b"] ["a", "b"] ["a"])
    .ok [] rfl (by decide)⟩

end TaskGroup

namespace TaskGroup

/-- C3: an invocation of the installed regression capability whose target
list contains an id that is not regression-eligible — never visited at tool
build time, not a registered factory key, or the active task id itself —
is rejected at the capability boundary (either by the `z.enum` parameter
schema or by the `ToolError` thrown in `execute`) with an error naming an
invalid id; the regression signal is not raised, and the scheduler state
the tool can reach (queue, visited set, results, done flag) is unchanged.
`st.visited` is the live visited set during the active window, i.e. the
build-time visited set with the active id added. -/
theorem c3_invalid_regression_rejected
    (visitedAtBuild registeredKeys : List String) (activeId : String)
    (st : ToolState) (ids : List String)
    (hv : st.visited = visitedInsert visitedAtBuild activeId)
    (hbad : ∃ t ∈ ids, t ∉ visitedAtBuild ∨
      registeredKeys.contains t = false ∨ t = activeId) :
    ∃ bad ∈ ids,
      (bad ∉ visitedAtBuild ∨ registeredKeys.contains bad = false ∨
        bad = activeId) ∧
      ((outOfScopeInvoke (buildEligible visitedAtBuild activeId)
          registeredKeys st ids).1 = .schemaRejected bad ∨
        (outOfScopeInvoke (buildEligible visitedAtBuild activeId)
          registeredKeys st ids).1 =
          .rejected ("Unable to regress, invalid task id " ++ bad)) ∧
      (outOfScopeInvoke (buildEligible visitedAtBuild activeId)
        registeredKeys st ids).2 = st ∧
      (∀ T, (outOfScopeInvoke (buildEligible visitedAtBuild activeId)
        registeredKeys st ids).1 ≠ .signaled T) := by
  cases h1 : zodEnumCheck (buildEligible visitedAtBuild activeId) ids with
  | some bad =>
    have h1' : ids.find?
        (fun t => !((buildEligible visitedAtBuild activeId).contains t)) =
        some bad := h1
    have hmem : bad ∈ ids := List.mem_of_find?_eq_some h1'
    have hpred := List.find?_some h1'
    have hnotelig : bad ∉ buildEligible visitedAtBuild activeId := by
      simp at hpred
      simpa using hpred
    have hinv : bad ∉ visitedAtBuild ∨
        registeredKeys.contains bad = false ∨ bad = activeId := by
      by_cases hb : bad ∈ visitedAtBuild
      · right; right
        by_contra hne
        exact hnotelig (by simp [buildEligible, List.mem_filter, hb, hne])
      · left; exact hb
    refine ⟨bad, hmem, hinv, Or.inl ?_, outOfScopeInvoke_snd _ _ _ _, ?_⟩
    · simp [outOfScopeInvoke, h1]
    · intro T
      simp [outOfScopeInvoke, h1]
  | none =>
    have h1' : ids.find?
        (fun t => !((buildEligible visitedAtBuild activeId).contains t)) =
        none := h1
    have hall : ∀ t ∈ ids, t ∈ visitedAtBuild ∧ t ≠ activeId := by
      intro t ht
      have hc := List.find?_eq_none.mp h1' t ht
      simp at hc
      simpa [buildEligible, List.mem_filter] using hc
    obtain ⟨t, ht, hinv⟩ := hbad
    have hreg : registeredKeys.contains t = false := by
      rcases hinv with h | h | h
      · exact absurd (hall t ht).1 h
      · exact h
      · exact absurd h (hall t ht).2
    have hpredt : (!(registeredKeys.contains t && st.visited.contains t)) =
        true := by
      simp
      left
      simpa using hreg
    have hfind : ∃ bad, executeCheck registeredKeys st.visited ids =
        some bad := by
      cases hfe : executeCheck registeredKeys st.visited ids with
      | some b => exact ⟨b, rfl⟩
      | none =>
        rw [executeCheck, List.find?_eq_none] at hfe
        exact absurd hpredt (hfe t ht)
    obtain ⟨bad, hfe⟩ := hfind
    have hfe' : ids.find?
        (fun t => !(registeredKeys.contains t && st.visited.contains t)) =
        some bad := hfe
    have hbadmem : bad ∈ ids := List.mem_of_find?_eq_some hfe'
    have hbadpred := List.find?_some hfe'
    have hbadelig := hall bad hbadmem
    have hbadvis : st.visited.contains bad = true := by
      rw [hv]
      simpa using subset_visitedInsert visitedAtBuild activeId hbadelig.1
    have hbadreg : registeredKeys.contains bad = false := by
      by_cases hr : registeredKeys.contains bad = true
      · rw [hr, hbadvis] at hbadpred
        simp at hbadpred
      · simpa using hr
    refine ⟨bad, hbadmem, Or.inr (Or.inl hbadreg), Or.inr ?_,
      outOfScopeInvoke_snd _ _ _ _, ?_⟩
    · simp [outOfScopeInvoke, h1, hfe]
    · intro T
      simp [outOfScopeInvoke, h1, hfe]

/-- C3 (witness): invoking the capability with the active task id itself is
rejected by the parameter schema and changes nothing. -/
theorem c3_invalid_regression_rejected_witness :
    ((ToolState.mk ["b"] ["a", "b"] [] false).visited =
      visitedInsert ["a"] "b") ∧
    (∃ t ∈ ["b"], t ∉ ["a"] ∨
      (["a", "b"] : List String).contains t = false ∨ t = "b") ∧
    (∃ bad ∈ ["b"],
      (bad ∉ ["a"] ∨ (["a", "b"] : List String).contains bad = false ∨
        bad = "b") ∧
      ((outOfScopeInvoke (buildEligible ["a"] "b") ["a", "b"]
          (ToolState.mk ["b"] ["a", "b"] [] false) ["b"]).1 =
          .schemaRejected bad ∨
        (outOfScopeInvoke (buildEligible ["a"] "b") ["a", "b"]
          (ToolState.mk ["b"] ["a", "b"] [] false) ["b"]).1 =
          .rejected ("Unable to regress, invalid task id " ++ bad)) ∧
      (outOfScopeInvoke (buildEligible ["a"] "b") ["a", "b"]
        (ToolState.mk ["b"] ["a", "b"] [] false) ["b"]).2 =
        ToolState.mk ["b"] ["a", "b"] [] false ∧
      (∀ T, (outOfScopeInvoke (buildEligible ["a"] "b") ["a", "b"]
        (ToolState.mk ["b"] ["a", "b"] [] false) ["b"]).1 ≠ .signaled T)) :=
  ⟨rfl, ⟨"b", by decide, Or.inr (Or.inr rfl)⟩,
    c3_invalid_regression_rejected ["a"] ["a", "b"] "b"
      (ToolState.mk ["b"] ["a", "b"] [] false) ["b"] rfl
      ⟨"b", by decide, Or.inr (Or.inr rfl)⟩⟩

end TaskGroup

namespace TaskGroup

/-- C4: under fail-fast (`returnExceptions` disabled), a task `tid` failing
with a non-regression error aborts the loop immediately: the abort's state
shows nothing ran after `tid` (the execution log gains only `tid`), the
result set is left exactly as before the iteration — so it contains no
entry for `tid` nor for any task queued after it — and the run's outcome
is exactly `tid`'s failure. -/
theorem c4_failfast_abort (tid : String) (rest : List String)
    (s : LoopState) (m : String) (cb : CbRes)
    (tr : List (RunOutcome × CbRes)) (hs : s.stack = tid :: rest)
    (htid : objGet s.results tid = none)
    (hrest : ∀ t ∈ rest, objGet s.results t = none) :
    ∃ s', runLoop false s ((.fail m, cb) :: tr) = .aborted m s' ∧
      s'.results = s.results ∧
      objGet s'.results tid = none ∧
      (∀ t ∈ rest, objGet s'.results t = none) ∧
      s'.execLog = s.execLog ++ [tid] ∧
      (∀ (sm lo : Bool) (su : Except String Unit),
        loopResultToRun sm lo su (.aborted m s') = .failed m) := by
  refine ⟨LoopState.mk rest s.results (visitedInsert s.visited tid)
    (s.execLog ++ [tid]) s.cbLog,
    ?_, rfl, htid, hrest, rfl, fun _ _ _ => rfl⟩
  simp only [runLoop, hs]
  cases cb <;> rfl

/-- C4 (witness): the theorem applied at a concrete state. -/
theorem c4_failfast_abort_witness :
    ((LoopState.mk ["b", "c"] [("a", .ok 1)] ["a"] ["a"] ["a"]).stack =
      "b" :: ["c"]) ∧
    objGet (LoopState.mk ["b", "c"] [("a", .ok 1)] ["a"] ["a"]
      ["a"]).results "b" = none ∧
    (∀ t ∈ ["c"], objGet (LoopState.mk ["b", "c"] [("a", .ok 1)] ["a"] ["a"]
      ["a"]).results t = none) ∧
    (∃ s', runLoop false
        (LoopState.mk ["b", "c"] [("a", .ok 1)] ["a"] ["a"] ["a"])
        [(.fail "bad", .ok), (.ok 3, .ok)] = .aborted "bad" s' ∧
      s'.results = (LoopState.mk ["b", "c"] [("a", .ok 1)] ["a"] ["a"]
        ["a"]).results ∧
      objGet s'.results "b" = none ∧
      (∀ t ∈ ["c"], objGet s'.results t = none) ∧
      s'.execLog = (LoopState.mk ["b", "c"] [("a", .ok 1)] ["a"] ["a"]
        ["a"]).execLog ++ ["b"] ∧
      (∀ (sm lo : Bool) (su : Except String Unit),
        loopResultToRun sm lo su (.aborted "bad" s') = .failed "bad")) :=
  ⟨rfl, by decide, by decide,
    c4_failfast_abort "b" ["c"]
      (LoopState.mk ["b", "c"] [("a", .ok 1)] ["a"] ["a"] ["a"])
      "bad" .ok [(.ok 3, .ok)] rfl (by decide) (by decide)⟩

/-- C5: under collect-and-continue (`returnExceptions` enabled), a task
`tid` failing with a non-regression error has the captured failure (with
its original message) recorded as its ResultSet entry and the loop
continues with the remaining queue; whenever that continuation drains the
queue, every task queued after `tid` has executed. -/
theorem c5_collect_and_continue (tid : String) (rest : List String)
    (s : LoopState) (m : String) (cb : CbRes)
    (tr : List (RunOutcome × CbRes)) (hs : s.stack = tid :: rest) :
    ∃ s', runLoop true s ((.fail m, cb) :: tr) = runLoop true s' tr ∧
      s'.stack = rest ∧
      objGet s'.results tid = some (.exn m) ∧
      (∀ fin, runLoop true s' tr = .drained fin →
        ∀ t ∈ rest, t ∈ fin.execLog) := by
  refine ⟨LoopState.mk rest (objSet s.results tid (.exn m))
    (visitedInsert s.visited tid) (s.execLog ++ [tid]) s.cbLog,
    ?_, rfl, objGet_objSet_self _ _ _, ?_⟩
  · simp only [runLoop, hs]
    cases cb <;> rfl
  · intro fin hdr t htr
    exact (runLoop_drained_mem_execLog true tr _ fin hdr).2 t htr

/-- C5 (witness): the theorem applied at a concrete state; after `b` fails
the queued task `c` still runs. -/
theorem c5_collect_and_continue_witness :
    ((LoopState.mk ["b", "c"] [("a", .ok 1)] ["a"] ["a"] ["a"]).stack =
      "b" :: ["c"]) ∧
    (∃ s', runLoop true
        (LoopState.mk ["b", "c"] [("a", .ok 1)] ["a"] ["a"] ["a"])
        [(.fail "bad", .ok), (.ok 3, .ok)] = runLoop true s' [(.ok 3, .ok)] ∧
      s'.stack = ["c"] ∧
      objGet s'.results "b" = some (.exn "bad") ∧
      (∀ fin, runLoop true s' [(.ok 3, .ok)] = .drained fin →
        ∀ t ∈ ["c"], t ∈ fin.execLog)) :=
  ⟨rfl, c5_collect_and_continue "b" ["c"]
    (LoopState.mk ["b", "c"] [("a", .ok 1)] ["a"] ["a"] ["a"])
    "bad" .ok [(.ok 3, .ok)] rfl⟩

end TaskGroup

namespace TaskGroup

/-- C6: with no regressions and every task and callback succeeding, the
tasks execute exactly in registration order, the completion callback fires
once per task in that same order, and the final outcome maps each task id
to its success value in registration order. -/
theorem c6_in_order_execution (reg : Registry) (vs : List Nat)
    (re llmOk : Bool) (summ : Except String Unit)
    (hlen : (mapKeys reg).length = vs.length)
    (hnd : (mapKeys reg).Nodup) :
    ∃ fin, runLoop re (initLoopState reg) (mkSuccessTrace vs) =
        .drained fin ∧
      fin.execLog = mapKeys reg ∧
      fin.cbLog = mapKeys reg ∧
      fin.results = (mapKeys reg).zip (vs.map .ok) ∧
      onEnter (Options.mk false re) reg (mkSuccessTrace vs) llmOk summ =
        .done ((mapKeys reg).zip (vs.map .ok)) := by
  have h := runLoop_allSuccess re (mapKeys reg) vs (initLoopState reg) rfl
    hlen hnd (fun t _ => by simp [initLoopState, hasKey])
  refine ⟨_, h, ?_, ?_, ?_, ?_⟩
  · simp [initLoopState]
  · simp [initLoopState]
  · simp [initLoopState]
  · have he : onEnter (Options.mk false re) reg (mkSuccessTrace vs)
        llmOk summ =
        loopResultToRun false llmOk summ
          (runLoop re (initLoopState reg) (mkSuccessTrace vs)) := rfl
    rw [he, h]
    simp [loopResultToRun, finalize, initLoopState]

/-- C6 (witness): the scenario `a, b, c` succeeding with `1, 2, 3`. -/
theorem c6_in_order_execution_witness :
    ((mapKeys [("a", ⟨0, "a", "A"⟩), ("b", ⟨1, "b", "B"⟩),
        ("c", ⟨2, "c", "C"⟩)]).length = ([1, 2, 3] : List Nat).length) ∧
    (mapKeys [("a", ⟨0, "a", "A"⟩), ("b", ⟨1, "b", "B"⟩),
      ("c", ⟨2, "c", "C"⟩)]).Nodup ∧
    (∃ fin, runLoop false
        (initLoopState [("a", ⟨0, "a", "A"⟩), ("b", ⟨1, "b", "B"⟩),
          ("c", ⟨2, "c", "C"⟩)]) (mkSuccessTrace [1, 2, 3]) =
        .drained fin ∧
      fin.execLog = mapKeys [("a", ⟨0, "a", "A"⟩), ("b", ⟨1, "b", "B"⟩),
        ("c", ⟨2, "c", "C"⟩)] ∧
      fin.cbLog = mapKeys [("a", ⟨0, "a", "A"⟩), ("b", ⟨1, "b", "B"⟩),
        ("c", ⟨2, "c", "C"⟩)] ∧
      fin.results = (mapKeys [("a", ⟨0, "a", "A"⟩), ("b", ⟨1, "b", "B"⟩),
        ("c", ⟨2, "c", "C"⟩)]).zip (([1, 2, 3] : List Nat).map .ok) ∧
      onEnter (Options.mk false false)
        [("a", ⟨0, "a", "A"⟩), ("b", ⟨1, "b", "B"⟩), ("c", ⟨2, "c", "C"⟩)]
        (mkSuccessTrace [1, 2, 3]) true (.ok ()) =
        .done ((mapKeys [("a", ⟨0, "a", "A"⟩), ("b", ⟨1, "b", "B"⟩),
          ("c", ⟨2, "c", "C"⟩)]).zip (([1, 2, 3] : List Nat).map .ok))) :=
  ⟨by decide, by decide,
    c6_in_order_execution
      [("a", ⟨0, "a", "A"⟩), ("b", ⟨1, "b", "B"⟩), ("c", ⟨2, "c", "C"⟩)]
      [1, 2, 3] false true (.ok ()) (by decide) (by decide)⟩

/-- C7: every loop iteration adds the popped id to the visited set before
consulting the task's outcome and removes nothing (the old visited set is
contained in the new one and the popped id is a member, in every branch);
an invocation of the regression capability leaves the visited set
unchanged; and the regression-eligible set computed at tool build time
never contains the active id. -/
theorem c7_visited_monotonicity :
    ∀ (re : Bool) (tid : String) (rest : List String) (s : LoopState)
      (e : RunOutcome × CbRes) (taskIdValues registeredKeys : List String)
      (st : ToolState) (ids vb : List String),
      s.visited ⊆ (stepState (loopStep re tid rest s e)).visited ∧
      tid ∈ (stepState (loopStep re tid rest s e)).visited ∧
      ((outOfScopeInvoke taskIdValues registeredKeys st ids).2).visited =
        st.visited ∧
      (buildEligible vb tid).contains tid = false := by
  intro re tid rest s e tv rk st ids vb
  refine ⟨?_, ?_, ?_, ?_⟩
  · rw [stepState_visited]
    exact subset_visitedInsert _ _
  · rw [stepState_visited]
    exact mem_visitedInsert_self _ _
  · rw [outOfScopeInvoke_snd]
  · simp [buildEligible]

/-- C7 (witness): the theorem applied at concrete values. -/
theorem c7_visited_monotonicity_witness :
    (["a"] : List String) ⊆
      (stepState (loopStep true "b" [] (LoopState.mk ["b"] [] ["a"] [] [])
        (.ok 1, .ok))).visited ∧
    "b" ∈ (stepState (loopStep true "b" []
      (LoopState.mk ["b"] [] ["a"] [] []) (.ok 1, .ok))).visited ∧
    ((outOfScopeInvoke ["a"] ["a", "b"]
      (ToolState.mk ["b"] ["a", "b"] [] false) ["a"]).2).visited =
      (ToolState.mk ["b"] ["a", "b"] [] false).visited ∧
    (buildEligible ["a", "b"] "b").contains "b" = false :=
  c7_visited_monotonicity true "b" [] (LoopState.mk ["b"] [] ["a"] [] [])
    (.ok 1, .ok) ["a"] ["a", "b"] (ToolState.mk ["b"] ["a", "b"] [] false)
    ["a"] ["a", "b"]

/-- C8: with history summarization enabled, if the summarization step fails
(no standard LLM on the session, or the summarize call itself fails), the
finalization reports a failure whose message identifies summarizing the
chat context as the cause, regardless of the accumulated results, and the
result set is never delivered; composed with a drained loop, the whole
run's outcome is that failure. -/
theorem c8_summarize_failure_fatal (llmOk : Bool)
    (summ : Except String Unit)
    (h : llmOk = false ∨ ∃ e, summ = .error e) :
    ∃ tail,
      (∀ results, finalize true llmOk summ results =
        .failed ("failed to summarize the chat_ctx: " ++ tail)) ∧
      (∀ results r, finalize true llmOk summ results ≠ .done r) ∧
      (∀ (re : Bool) (reg : Registry) (tr : List (RunOutcome × CbRes))
        (fin : LoopState),
        runLoop re (initLoopState reg) tr = .drained fin →
        onEnter (Options.mk true re) reg tr llmOk summ =
          .failed ("failed to summarize the chat_ctx: " ++ tail)) := by
  by_cases hl : llmOk = true
  · rcases h with h | ⟨e, he⟩
    · rw [hl] at h
      exact absurd h (by simp)
    · refine ⟨e, ?_, ?_, ?_⟩
      · intro results
        simp [finalize, hl, he]
      · intro results r
        simp [finalize, hl, he]
      · intro re reg tr fin hdr
        have hon : onEnter (Options.mk true re) reg tr llmOk summ =
            loopResultToRun true llmOk summ
              (runLoop re (initLoopState reg) tr) := rfl
        rw [hon, hdr]
        simp [loopResultToRun, finalize, hl, he]
  · have hl' : llmOk = false := by simpa using hl
    refine ⟨"Error: summarizeChatCtx requires a standard LLM on the session",
      ?_, ?_, ?_⟩
    · intro results
      simp [finalize, hl']
    · intro results r
      simp [finalize, hl']
    · intro re reg tr fin hdr
      have hon : onEnter (Options.mk true re) reg tr llmOk summ =
          loopResultToRun true llmOk summ
            (runLoop re (initLoopState reg) tr) := rfl
      rw [hon, hdr]
      simp [loopResultToRun, finalize, hl']

/-- C8 (witness): the theorem applied with a standard LLM present and a
failing summarize call. -/
theorem c8_summarize_failure_fatal_witness :
    ((true : Bool) = false ∨
      ∃ e, (Except.error "network error" : Except String Unit) = .error e) ∧
    (∃ tail,
      (∀ results, finalize true true (Except.error "network error") results =
        .failed ("failed to summarize the chat_ctx: " ++ tail)) ∧
      (∀ results r, finalize true true (Except.error "network error")
        results ≠ .done r) ∧
      (∀ (re : Bool) (reg : Registry) (tr : List (RunOutcome × CbRes))
        (fin : LoopState),
        runLoop re (initLoopState reg) tr = .drained fin →
        onEnter (Options.mk true re) reg tr true
          (Except.error "network error") =
          .failed ("failed to summarize the chat_ctx: " ++ tail))) :=
  ⟨Or.inr ⟨"network error", rfl⟩,
    c8_summarize_failure_fatal true (Except.error "network error")
      (Or.inr ⟨"network error", rfl⟩)⟩

end TaskGroup

namespace TaskGroup

/-- C9: registering a task id silently replaces the previously stored
factory and description on a duplicate (last write wins) while keeping the
key list unchanged, so the re-registered id keeps the position of its first
registration; a fresh id is appended; a duplicate-free key list stays
duplicate-free (each id occurs exactly once); and the initial queue is
seeded with exactly the registry's keys. -/
theorem c9_registry_last_write_wins (reg : Registry) (fac : Nat)
    (id descr : String) :
    objGet (add reg fac id descr) id = some ⟨fac, id, descr⟩ ∧
    (hasKey reg id = true →
      mapKeys (add reg fac id descr) = mapKeys reg) ∧
    (hasKey reg id = false →
      mapKeys (add reg fac id descr) = mapKeys reg ++ [id]) ∧
    ((mapKeys reg).Nodup → (mapKeys (add reg fac id descr)).Nodup) ∧
    (initLoopState (add reg fac id descr)).stack =
      mapKeys (add reg fac id descr) := by
  refine ⟨objGet_objSet_self _ _ _, ?_, ?_, ?_, rfl⟩
  · intro h
    exact mapFst_objSet_of_hasKey _ _ _ h
  · intro h
    exact mapFst_objSet_of_fresh _ _ _ h
  · intro hnd
    by_cases h : hasKey reg id = true
    · rw [show mapKeys (add reg fac id descr) = mapKeys reg from
        mapFst_objSet_of_hasKey _ _ _ h]
      exact hnd
    · have h' : hasKey reg id = false := by simpa using h
      rw [show mapKeys (add reg fac id descr) = mapKeys reg ++ [id] from
        mapFst_objSet_of_fresh _ _ _ h']
      have hid : id ∉ mapKeys reg := by
        simpa [hasKey, mapKeys] using h'
      simp [List.nodup_append, hnd, hid]

/-- C9 (witness): re-registering `a` replaces its factory and description,
keeps `a` first in the key order, and the queue is seeded with the keys. -/
theorem c9_registry_last_write_wins_witness :
    objGet (add [("a", ⟨0, "a", "A"⟩), ("b", ⟨1, "b", "B"⟩)] 2 "a" "A2")
      "a" = some ⟨2, "a", "A2"⟩ ∧
    (hasKey [("a", FactoryInfo.mk 0 "a" "A"), ("b", ⟨1, "b", "B"⟩)] "a" =
        true →
      mapKeys (add [("a", ⟨0, "a", "A"⟩), ("b", ⟨1, "b", "B"⟩)] 2 "a" "A2") =
        mapKeys [("a", ⟨0, "a", "A"⟩), ("b", ⟨1, "b", "B"⟩)]) ∧
    (hasKey [("a", FactoryInfo.mk 0 "a" "A"), ("b", ⟨1, "b", "B"⟩)] "a" =
        false →
      mapKeys (add [("a", ⟨0, "a", "A"⟩), ("b", ⟨1, "b", "B"⟩)] 2 "a" "A2") =
        mapKeys [("a", ⟨0, "a", "A"⟩), ("b", ⟨1, "b", "B"⟩)] ++ ["a"]) ∧
    ((mapKeys [("a", FactoryInfo.mk 0 "a" "A"), ("b", ⟨1, "b", "B"⟩)]).Nodup →
      (mapKeys (add [("a", ⟨0, "a", "A"⟩), ("b", ⟨1, "b", "B"⟩)] 2 "a"
        "A2")).Nodup) ∧
    (initLoopState (add [("a", ⟨0, "a", "A"⟩), ("b", ⟨1, "b", "B"⟩)] 2 "a"
      "A2")).stack =
      mapKeys (add [("a", ⟨0, "a", "A"⟩), ("b", ⟨1, "b", "B"⟩)] 2 "a" "A2") :=
  c9_registry_last_write_wins [("a", ⟨0, "a", "A"⟩), ("b", ⟨1, "b", "B"⟩)]
    2 "a" "A2"

/-- C10: an invocation of the regression capability whose targets all pass
both validation layers, but whose bound task instance is already done, is a
no-op: no regression signal is raised and the state the tool can reach
(queue, visited set, results, done flag) is unchanged. -/
theorem c10_invoke_after_done_noop (taskIdValues registeredKeys : List String)
    (st : ToolState) (ids : List String)
    (hvalid : ∀ t ∈ ids, taskIdValues.contains t = true ∧
      registeredKeys.contains t = true ∧ st.visited.contains t = true)
    (hdone : st.currentDone = true) :
    (outOfScopeInvoke taskIdValues registeredKeys st ids).1 = .noop ∧
    (outOfScopeInvoke taskIdValues registeredKeys st ids).2 = st ∧
    (∀ T, (outOfScopeInvoke taskIdValues registeredKeys st ids).1 ≠
      .signaled T) := by
  have h1 : zodEnumCheck taskIdValues ids = none := by
    rw [zodEnumCheck, List.find?_eq_none]
    intro t ht
    have hm := (hvalid t ht).1
    simp at hm ⊢
    exact hm
  have h2 : executeCheck registeredKeys st.visited ids = none := by
    rw [executeCheck, List.find?_eq_none]
    intro t ht
    have hm := hvalid t ht
    simp at hm ⊢
    exact ⟨hm.2.1, hm.2.2⟩
  refine ⟨?_, outOfScopeInvoke_snd _ _ _ _, ?_⟩
  · simp [outOfScopeInvoke, h1, h2, hdone]
  · intro T
    simp [outOfScopeInvoke, h1, h2, hdone]

/-- C10 (witness): a valid invocation against an already-completed task
instance changes nothing and signals nothing. -/
theorem c10_invoke_after_done_noop_witness :
    (∀ t ∈ ["a"], (["a"] : List String).contains t = true ∧
      (["a", "b"] : List String).contains t = true ∧
      (ToolState.mk ["b"] ["a", "b"] [("a", .ok 1)] true).visited.contains
        t = true) ∧
    (ToolState.mk ["b"] ["a", "b"] [("a", .ok 1)] true).currentDone = true ∧
    ((outOfScopeInvoke ["a"] ["a", "b"]
        (ToolState.mk ["b"] ["a", "b"] [("a", .ok 1)] true) ["a"]).1 =
      .noop ∧
    (outOfScopeInvoke ["a"] ["a", "b"]
        (ToolState.mk ["b"] ["a", "b"] [("a", .ok 1)] true) ["a"]).2 =
      ToolState.mk ["b"] ["a", "b"] [("a", .ok 1)] true ∧
    (∀ T, (outOfScopeInvoke ["a"] ["a", "b"]
        (ToolState.mk ["b"] ["a", "b"] [("a", .ok 1)] true) ["a"]).1 ≠
      .signaled T)) :=
  ⟨by decide, rfl,
    c10_invoke_after_done_noop ["a"] ["a", "b"]
      (ToolState.mk ["b"] ["a", "b"] [("a", .ok 1)] true) ["a"]
      (by decide) rfl⟩

end TaskGroup
